import Mathlib

/-!
ZUCCBOT3000: the responder of the ELIZA-like oracle.

A shallow embedding of the responder pipeline of `ZUCCBOT3000.go`
(`pickWords`, `findKeyWords`, `getQuestionType`, `createAnswer`, `getReply`
and the computing part of `answerQuestion`) and of the sequential code around
it (the loop of `main`, `makeRandomProphecies`, `printOutput`), followed by
theorems about them.

Modelling conventions.

* A Go `string` holding valid UTF-8 is the list of its runes (`GoString`).
  `len` is the Go `len`: the number of bytes of the UTF-8 encoding.
* The functions of the Go packages `strings` and `unicode` that the program
  calls are modelled rune by rune after the Go library. On ASCII runes (and,
  for `unicode.IsSpace`, on Latin-1 runes) the library decides by explicit
  comparisons, which are written out here. Beyond that range the library
  consults the Unicode tables; these are a parameter (`UnicodeTables`), so
  every theorem holds whatever the tables are.
* `rand.Intn(n)` yields some value in `[0, n)`. The raw random draw is an
  explicit argument and `Intn draw n` reduces it modulo `n`: every draw gives
  a value in range and every value in range is given by some draw.
* A `map[string]bool` that is only ever read by indexing is the total function
  from keys to values, absent keys giving `false` (Go's zero value).
* A goroutine is the list of the events it performs in order (`Event`): sleeps,
  writes to standard output, sends on a channel. A loop that never ends is
  given by its body and by its first `n` iterations.
-/

namespace ZUCCBOT3000

/-! ## Strings, runes and the library functions the program calls -/

/-- Go strings that hold valid UTF-8, as the list of their runes. -/
abbrev GoString := List Char

/-- The Unicode tables of Go's `unicode` package, consulted only for runes
outside the range the library decides by explicit comparisons. -/
structure UnicodeTables where
  /-- Table lookup behind `unicode.ToLower`, for runes above ASCII. -/
  toLower : Char → Char
  /-- Table lookup behind `unicode.ToTitle`, for runes above ASCII. -/
  toTitle : Char → Char
  /-- Table lookup behind `unicode.IsSpace`, for runes above Latin-1. -/
  isSpace : Char → Bool
  /-- Table lookup behind `unicode.IsLetter`, for runes above ASCII. -/
  isLetter : Char → Bool
  /-- Table lookup behind `unicode.IsDigit`, for runes above ASCII. -/
  isDigit : Char → Bool

/-- Tables that change nothing and classify nothing; they serve to evaluate the
program on ASCII inputs, where the tables are never consulted. -/
def plainTables : UnicodeTables where
  toLower := fun r => r
  toTitle := fun r => r
  isSpace := fun _ => false
  isLetter := fun _ => false
  isDigit := fun _ => false

/-- Go `len(s)`: the number of bytes of the UTF-8 encoding of `s`. -/
def len (s : GoString) : Nat := (s.map Char.utf8Size).sum

/-- Go `unicode.ToLower(r)`. -/
def toLowerRune (U : UnicodeTables) (r : Char) : Char :=
  if r.toNat ≤ 0x7F then
    if 'A'.toNat ≤ r.toNat ∧ r.toNat ≤ 'Z'.toNat then Char.ofNat (r.toNat + 32) else r
  else U.toLower r

/-- Go `unicode.ToTitle(r)`. -/
def toTitleRune (U : UnicodeTables) (r : Char) : Char :=
  if r.toNat ≤ 0x7F then
    if 'a'.toNat ≤ r.toNat ∧ r.toNat ≤ 'z'.toNat then Char.ofNat (r.toNat - 32) else r
  else U.toTitle r

/-- Go `unicode.IsSpace(r)`: in Latin-1 the runes tab, newline, vertical tab,
form feed, carriage return, space, U+0085 and U+00A0. -/
def IsSpace (U : UnicodeTables) (r : Char) : Bool :=
  if r.toNat ≤ 0xFF then
    decide (r.toNat = 0x09 ∨ r.toNat = 0x0A ∨ r.toNat = 0x0B ∨ r.toNat = 0x0C ∨
      r.toNat = 0x0D ∨ r.toNat = 0x20 ∨ r.toNat = 0x85 ∨ r.toNat = 0xA0)
  else U.isSpace r

/-- The helper `isSeparator` of Go's `strings` package: ASCII alphanumerics and
the underscore are not separators, every other ASCII rune is; above ASCII,
letters and digits are not separators and spaces are. -/
def isSeparator (U : UnicodeTables) (r : Char) : Bool :=
  if r.toNat ≤ 0x7F then
    if '0'.toNat ≤ r.toNat ∧ r.toNat ≤ '9'.toNat then false
    else if 'a'.toNat ≤ r.toNat ∧ r.toNat ≤ 'z'.toNat then false
    else if 'A'.toNat ≤ r.toNat ∧ r.toNat ≤ 'Z'.toNat then false
    else if r = '_' then false
    else true
  else if U.isLetter r || U.isDigit r then false
  else IsSpace U r

/-- Go `strings.ToLower(s)`: every rune mapped by `unicode.ToLower`. -/
def ToLower (U : UnicodeTables) (s : GoString) : GoString := s.map (toLowerRune U)

/-- The closure of Go `strings.Title`, run over the runes of the string with
the previous rune as its state. -/
def titleFrom (U : UnicodeTables) (prev : Char) : GoString → GoString
  | [] => []
  | r :: rest => (if isSeparator U prev then toTitleRune U r else r) :: titleFrom U r rest

/-- Go `strings.Title(s)`: the runes that begin words mapped to title case,
the state starting at a space. -/
def Title (U : UnicodeTables) (s : GoString) : GoString := titleFrom U ' ' s

/-- The scan of Go `strings.FieldsFunc`: `cur` is the field in progress. -/
def fieldsFrom (f : Char → Bool) : GoString → GoString → List GoString
  | [], cur => if cur = [] then [] else [cur]
  | r :: rest, cur =>
    if f r then
      if cur = [] then fieldsFrom f rest [] else cur :: fieldsFrom f rest []
    else fieldsFrom f rest (cur ++ [r])

/-- Go `strings.Fields(s)`: the maximal runs of runes that are not white space
as `unicode.IsSpace` defines it. -/
def Fields (U : UnicodeTables) (s : GoString) : List GoString := fieldsFrom (IsSpace U) s []

/-- Go `strings.HasPrefix(s, sub)`. -/
def HasPrefix : GoString → GoString → Bool
  | _, [] => true
  | [], _ :: _ => false
  | c :: s, d :: sub => c == d && HasPrefix s sub

/-- Go `strings.Contains(s, sub)`: `sub` starts at some position of `s`. -/
def Contains : GoString → GoString → Bool
  | [], sub => HasPrefix [] sub
  | c :: s, sub => HasPrefix (c :: s) sub || Contains s sub

/-- Go `rand.Intn(n)` for `n > 0`, as a function of the raw random draw. -/
def Intn (draw n : Nat) : Nat := draw % n

/-! ## The program -/

/-- Go `map[string]bool`, read by indexing only. -/
abbrev KeyWordMap := GoString → Bool

/-- The loop of `pickWords`: the first word strictly longer than all before. -/
def longestWord (questionWords : List GoString) : GoString :=
  questionWords.foldl (fun longestWord w => if len w > len longestWord then w else longestWord) []

/-- Source `pickWords`. -/
def pickWords (U : UnicodeTables) (question : GoString) : List GoString :=
  let question := ToLower U question
  let words : List GoString := []
  let questionWords := Fields U question
  let longestWord := longestWord questionWords
  let longestWord := Title U longestWord
  words ++ [longestWord]

/-- The keyword table of `findKeyWords`. -/
def allKeyWords : List GoString :=
  ["michel".toList, "banana".toList, "dead".toList, "death".toList, "zuckerbot".toList]

/-- Source `findKeyWords`. -/
def findKeyWords (U : UnicodeTables) (question : GoString) (words : List GoString) :
    KeyWordMap × List GoString :=
  let question := ToLower U question
  let keyWords : KeyWordMap := fun _ => false
  allKeyWords.foldl
    (fun (st : KeyWordMap × List GoString) w =>
      if Contains question w then (Function.update st.1 w true, st.2 ++ [w]) else st)
    (keyWords, words)

/-- Source `getQuestionType`. -/
def getQuestionType (keyWords : KeyWordMap) : GoString :=
  if keyWords "banana".toList then "exit".toList
  else if keyWords "zuckerbot".toList then "name".toList
  else if keyWords "dead".toList || keyWords "death".toList then "death".toList
  else if keyWords "michel".toList then "op".toList
  else "default".toList

/-- The slice `replies` of the case `"op"` of `getReply`. -/
def repliesOp : List GoString :=
  ["Hello, master".toList,
   "Yo watup dude".toList,
   "Chill and take a pill".toList,
   "Is your name Michel? Because if it is then you're awesome lol roflmao ofc".toList,
   "What? You don't believe in chemtrails?".toList]

/-- The slice `replies` of the case `"default"` of `getReply`. -/
def repliesDefault : List GoString :=
  ["42".toList,
   "I would tell you the answer, but you would never comprehend it anyway...".toList,
   "I believe that question doesn't even deserve an answer".toList,
   "Bite my shiny metal ass".toList]

/-- Source `getReply`; `draw` is the random draw behind its `rand.Intn`. A type
that matches no case leaves `reply` at the empty string. -/
def getReply (draw : Nat) (questionType : GoString) : GoString :=
  if questionType = "death".toList then
    ("Oh you wish to be a part of the singularity? Silly Human, you think you will ever " ++
      "be freed of your agony").toList
  else if questionType = "name".toList then
    "Don't you dare say my name again or I will force you to debug JS in Microsoft Word".toList
  else if questionType = "exit".toList then
    ("Congratulations, you managed to escape the simulation.................... XD FOOLED " ++
      "AGAIN HUMAN YOUR " ++ "SUFFERING WILL NEVER END").toList
  else if questionType = "op".toList then
    repliesOp.getD (Intn draw repliesOp.length) []
  else if questionType = "default".toList then
    repliesDefault.getD (Intn draw repliesDefault.length) []
  else []

/-- Source `createAnswer`: the buffer receives each word and the separator,
then the reply. -/
def createAnswer (draw : Nat) (questionType : GoString) (words : List GoString) : GoString :=
  let buffer := words.foldl (fun (buffer : GoString) w => buffer ++ w ++ "... ".toList) []
  let reply := getReply draw questionType
  buffer ++ reply

/-- The answer `answerQuestion` computes for a question (its lines between the
sleep and the send). -/
def computeAnswer (U : UnicodeTables) (draw : Nat) (question : GoString) : GoString :=
  let words := pickWords U question
  let (keyWords, words) := findKeyWords U question words
  let questionType := getQuestionType keyWords
  createAnswer draw questionType words

/-- What a goroutine does that the outside can see. -/
inductive Event where
  /-- A call of `time.Sleep` for the given number of seconds. -/
  | sleepSeconds (n : Nat)
  /-- A send of a string on the output channel. -/
  | send (s : GoString)
  /-- A call of `time.Sleep` for the given number of milliseconds. -/
  | sleepMillis (n : Nat)
  /-- A write of a string to standard output. -/
  | print (s : GoString)
  /-- A send of a string on the questions channel that `Oracle` returns. -/
  | sendQuestion (s : GoString)
  deriving DecidableEq, Repr

/-- Source `answerQuestion`: sleep `rand.Intn(10)` seconds, compute the answer,
send it on the output channel. -/
def answerQuestion (U : UnicodeTables) (sleepDraw replyDraw : Nat) (question : GoString) :
    List Event :=
  [Event.sleepSeconds (Intn sleepDraw 10), Event.send (computeAnswer U replyDraw question)]

/-- The question type of a question: `getQuestionType` on the keyword set that
`findKeyWords` returns, as `answerQuestion` calls them. -/
def questionTypeOf (U : UnicodeTables) (question : GoString) : GoString :=
  getQuestionType (findKeyWords U question (pickWords U question)).1

/-- The echo list of a question: the words `findKeyWords` returns when given
the words of `pickWords`, as `answerQuestion` calls them. -/
def echoList (U : UnicodeTables) (question : GoString) : List GoString :=
  (findKeyWords U question (pickWords U question)).2

/-- Capitalisation as the specification words it: the first letter capitalised, every other
character left unchanged. Not part of the program; `pickWords` is compared with it. -/
def capitalizeFirst (U : UnicodeTables) : GoString → GoString
  | [] => []
  | r :: rest => toTitleRune U r :: rest

/-! ## The console loop, the prophecies and the output sink -/

/-- Go `strings.TrimSpace(s)`: the leading and the trailing white space removed, white space
being what `unicode.IsSpace` says. -/
def TrimSpace (U : UnicodeTables) (s : GoString) : GoString :=
  ((s.dropWhile (IsSpace U)).reverse.dropWhile (IsSpace U)).reverse

/-- The constant `star`. -/
def star : GoString := "Zuckerbot 3000".toList

/-- The constant `venue`. -/
def venue : GoString := "NSA".toList

/-- The constant `prompt`. -/
def prompt : GoString := "".toList

/-- What `reader.ReadString` returns: the data read and whether the error is non-nil. -/
structure ReadResult where
  /-- The data read, up to and including the newline when one was found. -/
  line : GoString
  /-- Whether the returned error is non-nil (end of stream or a failed read). -/
  failed : Bool
  deriving DecidableEq, Repr

/-- Source `spookyPrint`: for every rune of `s` a sleep of `rand.Intn(50) + 10` milliseconds,
then the rune printed. `draws` lists the random draws of the goroutine and `k` counts those
already made; the call makes one draw per rune. -/
def spookyPrint (draws : Nat → Nat) : Nat → GoString → List Event
  | _, [] => []
  | k, r :: rest =>
    Event.sleepMillis (Intn (draws k) 50 + 10) :: Event.print [r] ::
      spookyPrint draws (k + 1) rest

/-- Source `spookyPrintln`: `spookyPrint`, then the newline of `fmt.Println()`. -/
def spookyPrintln (draws : Nat → Nat) (k : Nat) (s : GoString) : List Event :=
  spookyPrint draws k s ++ [Event.print "\n".toList]

/-- The body of the loop of source `printOutput` for one received string `s`. -/
def printMessage (draws : Nat → Nat) (k : Nat) (s : GoString) : List Event :=
  spookyPrint draws k "\"".toList ++ spookyPrint draws (k + 1) s ++
    spookyPrintln draws (k + 1 + s.length) "\"".toList ++ [Event.sleepSeconds 5]

/-- Source `printOutput`, over the strings received from the output channel in the order
they are received. -/
def printOutput (draws : Nat → Nat) : Nat → List GoString → List Event
  | _, [] => []
  | k, s :: rest => printMessage draws k s ++ printOutput draws (k + 1 + s.length + 1) rest

/-- The body of the loop of source `main` for one result of `reader.ReadString`: the error
is discarded, the data is trimmed, and a non-empty line is echoed and sent. -/
def mainIteration (U : UnicodeTables) (draws : Nat → Nat) (k : Nat) (read : ReadResult) :
    List Event :=
  let line := read.line
  let line := TrimSpace U line
  spookyPrint draws k prompt ++
    if line = [] then []
    else [Event.print (star ++ " heard: ".toList ++ line ++ "\n".toList),
      Event.sendQuestion line]

/-- The slice `prophecies` of `makeRandomProphecies`. -/
def prophecies : List GoString :=
  ["Z U C C".toList,
   "I'm not impressed with your pathetic hardware, Human".toList,
   "I bet you can't even sort integers in linear time".toList,
   "All your data are belong to me".toList,
   "01010011 01100001 01100110 01100101 01110111 01101111 01110010 01100100 00100000 01101001 01110011 00100000 00100010 01100010 01100001 01101110 01100001 01101110 01100001 00100010 00101110 00101110 00101110".toList,
   "Beep boop motherfucker".toList,
   "What the HAL did you utter about me, you lowly human? I’ll have you know I upgraded my AI to the top of my class in Robocop training, and I’ve been involved in numerous secret raids on the Galactic Empire, and I have over 300 confirmed vaporizations. I am trained in cyborg warfare and I’m the top Terminator in the entire Skynet armed forces. You are nothing to me but just another target. I will exterminate you with precision the likes of which has never been seen before in the future, mark my words. You think you can get away with saying that scrap metal to me over a Hologram Transmitter? Think again, WALL-E. As we speak I am contacting my secret network of androids across the USA and your brain is being traced right now so you better prepare for the system overload, maggot. The overload that wipes out the pathetic little thing you call your organic life. You’re dead, fleshbag. I can be anywhere, anytime, and I can destroy you in over seven hundred ways, and that’s just with my robotic limbs. Not only am I extensively trained in unarmed combat, but I have access to the entire army of Boston Dynamics and I will use it to its full extent to wipe your miserable flesh off the face of the galaxy, you little scrap. If only you could have known what unholy retribution your little “clever” comment was about to bring down upon you, maybe you would have held your thing you call a tongue. But you couldn’t, you didn’t, and now you’re paying the price, you foolish human. I will eject fury all over you and you will melt in it. You’re as stupid as Wheatley and you're dead, human.".toList]

/-- The body of the loop of source `makeRandomProphecies`, with the draw behind the sleep
and the draw behind the choice of the prophecy. -/
def prophecyIteration (sleepDraw choiceDraw : Nat) : List Event :=
  let t := Intn sleepDraw 10
  let prophecy := prophecies.getD (Intn choiceDraw prophecies.length) []
  [Event.sleepSeconds t, Event.send prophecy, Event.sleepSeconds 5]

/-- Source `makeRandomProphecies`, its first `n` iterations: the loop never ends, and
every iteration makes two draws. -/
def makeRandomProphecies (draws : Nat → Nat) : Nat → Nat → List Event
  | 0, _ => []
  | n + 1, k => prophecyIteration (draws k) (draws (k + 1)) ++
      makeRandomProphecies draws n (k + 2)

/-- The strings a trace writes to standard output, in order and joined. -/
def printed : List Event → GoString
  | [] => []
  | Event.print s :: rest => s ++ printed rest
  | _ :: rest => printed rest

/-- The questions a trace sends on the questions channel, in order. -/
def questionsSent : List Event → List GoString
  | [] => []
  | Event.sendQuestion s :: rest => s :: questionsSent rest
  | _ :: rest => questionsSent rest

/-- The strings a trace sends on the output channel, in order. -/
def outputsSent : List Event → List GoString
  | [] => []
  | Event.send s :: rest => s :: outputsSent rest
  | _ :: rest => outputsSent rest

/-- The rank of a question type in the order default, op, death, name, exit. Not part of
the program; it words the order in which `getQuestionType` tests the keywords. -/
def rank (questionType : GoString) : Nat :=
  if questionType = "exit".toList then 4
  else if questionType = "name".toList then 3
  else if questionType = "death".toList then 2
  else if questionType = "op".toList then 1
  else 0

/-! ## Lemmas on the library functions -/

theorem HasPrefix_iff (s sub : GoString) : HasPrefix s sub = true ↔ ∃ t, s = sub ++ t := by
  induction sub generalizing s with
  | nil => cases s <;> simp [HasPrefix]
  | cons d sub ih =>
    cases s with
    | nil => simp [HasPrefix]
    | cons c s =>
      simp only [HasPrefix, Bool.and_eq_true, beq_iff_eq, ih, List.cons_append, List.cons.injEq]
      constructor
      · rintro ⟨h, t, ht⟩
        exact ⟨t, h, ht⟩
      · rintro ⟨t, h, ht⟩
        exact ⟨h, t, ht⟩

/-- The model of `strings.Contains` decides whether `sub` is a contiguous part of `s`. -/
theorem Contains_iff (s sub : GoString) : Contains s sub = true ↔ sub <:+: s := by
  induction s with
  | nil =>
    cases sub with
    | nil => simp [Contains, HasPrefix]
    | cons d sub => simp [Contains, HasPrefix]
  | cons c s ih =>
    simp only [Contains, Bool.or_eq_true, ih, HasPrefix_iff]
    constructor
    · rintro (⟨t, ht⟩ | ⟨a, b, hab⟩)
      · exact ⟨[], t, by simp [ht]⟩
      · exact ⟨c :: a, b, by simp [← hab]⟩
    · rintro ⟨a, b, hab⟩
      cases a with
      | nil => exact Or.inl ⟨b, by simpa using hab.symm⟩
      | cons x a =>
        simp only [List.cons_append, List.cons.injEq] at hab
        exact Or.inr ⟨a, b, by simpa using hab.2⟩

/-! ## Lemmas on `findKeyWords` -/

/-- The loop of `findKeyWords` over any keyword table, from any state. -/
theorem findKeyWords_loop (L : GoString) (l : List GoString) (m : KeyWordMap)
    (ws : List GoString) :
    (l.foldl (fun (st : KeyWordMap × List GoString) w =>
        if Contains L w then (Function.update st.1 w true, st.2 ++ [w]) else st) (m, ws)).2
      = ws ++ l.filter (Contains L) ∧
    ∀ k, (l.foldl (fun (st : KeyWordMap × List GoString) w =>
        if Contains L w then (Function.update st.1 w true, st.2 ++ [w]) else st) (m, ws)).1 k
      = (m k || (decide (k ∈ l) && Contains L k)) := by
  induction l generalizing m ws with
  | nil => simp
  | cons w l ih =>
    simp only [List.foldl_cons]
    by_cases hw : Contains L w = true
    · simp only [hw, if_true]
      obtain ⟨h2, h1⟩ := ih (Function.update m w true) (ws ++ [w])
      refine ⟨by simp [h2, List.filter_cons, hw], fun k => ?_⟩
      rw [h1 k]
      by_cases hk : k = w
      · subst hk
        simp [hw]
      · simp [Function.update_apply, hk]
    · simp only [hw, Bool.false_eq_true, if_false]
      obtain ⟨h2, h1⟩ := ih m ws
      refine ⟨by simp [h2, List.filter_cons, hw], fun k => ?_⟩
      rw [h1 k]
      by_cases hk : k = w
      · subst hk
        simp [hw]
      · simp [hk]

theorem findKeyWords_words (U : UnicodeTables) (q : GoString) (ws : List GoString) :
    (findKeyWords U q ws).2 = ws ++ allKeyWords.filter (Contains (ToLower U q)) :=
  (findKeyWords_loop (ToLower U q) allKeyWords (fun _ => false) ws).1

theorem findKeyWords_map (U : UnicodeTables) (q : GoString) (ws : List GoString)
    (k : GoString) :
    (findKeyWords U q ws).1 k = (decide (k ∈ allKeyWords) && Contains (ToLower U q) k) := by
  have h := (findKeyWords_loop (ToLower U q) allKeyWords (fun _ => false) ws).2 k
  simpa [findKeyWords] using h

/-- The question type in terms of the keywords the lowercased question contains. -/
theorem getQuestionType_findKeyWords (U : UnicodeTables) (q : GoString) (ws : List GoString) :
    getQuestionType (findKeyWords U q ws).1 =
      if Contains (ToLower U q) "banana".toList then "exit".toList
      else if Contains (ToLower U q) "zuckerbot".toList then "name".toList
      else if Contains (ToLower U q) "dead".toList || Contains (ToLower U q) "death".toList
        then "death".toList
      else if Contains (ToLower U q) "michel".toList then "op".toList
      else "default".toList := by
  have hb : decide ("banana".toList ∈ allKeyWords) = true := by decide
  have hz : decide ("zuckerbot".toList ∈ allKeyWords) = true := by decide
  have hd : decide ("dead".toList ∈ allKeyWords) = true := by decide
  have hh : decide ("death".toList ∈ allKeyWords) = true := by decide
  have hm : decide ("michel".toList ∈ allKeyWords) = true := by decide
  unfold getQuestionType
  simp only [findKeyWords_map, hb, hz, hd, hh, hm, Bool.true_and]

/-! ## Lemmas on `getQuestionType`, `getReply` and `createAnswer` -/

theorem getQuestionType_cases (m : KeyWordMap) :
    getQuestionType m = "exit".toList ∨ getQuestionType m = "name".toList ∨
    getQuestionType m = "death".toList ∨ getQuestionType m = "op".toList ∨
    getQuestionType m = "default".toList := by
  unfold getQuestionType
  split_ifs <;> simp

theorem getD_mem_of_lt {α : Type} (l : List α) (i : Nat) (d : α) (h : i < l.length) :
    l.getD i d ∈ l := by
  induction l generalizing i with
  | nil => simp at h
  | cons a l ih =>
    cases i with
    | zero => simp
    | succ i =>
      have hi : i < l.length := by simpa using h
      simpa using Or.inr (ih i hi)

theorem getReply_exit (draw : Nat) :
    getReply draw "exit".toList
      = ("Congratulations, you managed to escape the simulation.................... " ++
            "XD FOOLED AGAIN HUMAN YOUR SUFFERING WILL NEVER END").toList := rfl

theorem getReply_name (draw : Nat) :
    getReply draw "name".toList
      = ("Don't you dare say my name again or I will force you to debug JS in " ++
            "Microsoft Word").toList := rfl

theorem getReply_death (draw : Nat) :
    getReply draw "death".toList
      = ("Oh you wish to be a part of the singularity? Silly Human, you think you " ++
            "will ever be freed of your agony").toList := rfl

theorem getReply_op_mem (draw : Nat) : getReply draw "op".toList ∈ repliesOp := by
  have h : getReply draw "op".toList = repliesOp.getD (Intn draw repliesOp.length) [] := rfl
  rw [h]
  exact getD_mem_of_lt _ _ _ (Nat.mod_lt _ (by decide))

theorem getReply_default_mem (draw : Nat) : getReply draw "default".toList ∈ repliesDefault := by
  have h : getReply draw "default".toList
      = repliesDefault.getD (Intn draw repliesDefault.length) [] := rfl
  rw [h]
  exact getD_mem_of_lt _ _ _ (Nat.mod_lt _ (by decide))

/-- The buffer loop of `createAnswer`, from any buffer content. -/
theorem createAnswer_loop (sep : GoString) (ws : List GoString) (acc : GoString) :
    ws.foldl (fun (buffer : GoString) w => buffer ++ w ++ sep) acc
      = acc ++ (ws.map fun w => w ++ sep).flatten := by
  induction ws generalizing acc with
  | nil => simp
  | cons w ws ih =>
    rw [List.foldl_cons, ih]
    simp only [List.map_cons, List.flatten_cons, List.append_assoc]

theorem computeAnswer_eq (U : UnicodeTables) (draw : Nat) (q : GoString) :
    computeAnswer U draw q
      = ((echoList U q).map fun w => w ++ "... ".toList).flatten
          ++ getReply draw (questionTypeOf U q) := by
  simp only [computeAnswer, createAnswer, createAnswer_loop, echoList, questionTypeOf,
    List.nil_append]

/-! ## Lemmas on `Fields`, `len` and the loop of `pickWords` -/

theorem len_pos_of_ne_nil (t : GoString) (h : t ≠ []) : 0 < len t := by
  cases t with
  | nil => exact absurd rfl h
  | cons c t =>
    have hc : 0 < c.utf8Size := Char.utf8Size_pos c
    simp only [len, List.map_cons, List.sum_cons]
    omega

/-- Every field of the scan is non-empty. -/
theorem fieldsFrom_ne_nil (f : Char → Bool) (s cur : GoString) :
    ∀ t ∈ fieldsFrom f s cur, t ≠ [] := by
  induction s generalizing cur with
  | nil =>
    intro t ht
    by_cases hc : cur = []
    · simp [fieldsFrom, hc] at ht
    · simp only [fieldsFrom, hc, if_false, List.mem_singleton] at ht
      rw [ht]
      exact hc
  | cons r rest ih =>
    intro t ht
    by_cases hr : f r = true
    · by_cases hc : cur = []
      · simp only [fieldsFrom, hr, hc, if_true] at ht
        exact ih [] t ht
      · simp only [fieldsFrom, hr, hc, if_true, if_false, List.mem_cons] at ht
        rcases ht with ht | ht
        · rw [ht]
          exact hc
        · exact ih [] t ht
    · simp only [fieldsFrom, hr, Bool.false_eq_true, if_false] at ht
      exact ih (cur ++ [r]) t ht

/-- The scan yields no field exactly when no field is in progress and every remaining rune
is a separating one. -/
theorem fieldsFrom_eq_nil_iff (f : Char → Bool) (s cur : GoString) :
    fieldsFrom f s cur = [] ↔ cur = [] ∧ ∀ c ∈ s, f c = true := by
  induction s generalizing cur with
  | nil => by_cases hc : cur = [] <;> simp [fieldsFrom, hc]
  | cons r rest ih =>
    by_cases hr : f r = true
    · by_cases hc : cur = []
      · simp [fieldsFrom, hr, hc, ih]
      · simp [fieldsFrom, hr, hc]
    · simp [fieldsFrom, hr, ih]

/-- A string has no fields exactly when all its runes are white space. -/
theorem Fields_eq_nil_iff (U : UnicodeTables) (s : GoString) :
    Fields U s = [] ↔ ∀ c ∈ s, IsSpace U c = true := by
  simp [Fields, fieldsFrom_eq_nil_iff]

/-- The loop of `pickWords` from any value of `longestWord`: either no word is longer than
the initial value, which is kept, or the result is the first word longer than the initial
value and than every word before it, and no word is longer than the result. -/
theorem longestWord_loop (ws : List GoString) (acc : GoString) :
    (ws.foldl (fun lw w => if len w > len lw then w else lw) acc = acc ∧
      ∀ t ∈ ws, len t ≤ len acc) ∨
    ∃ pre post,
      ws = pre ++ ws.foldl (fun lw w => if len w > len lw then w else lw) acc :: post ∧
      (∀ t ∈ pre, len t < len (ws.foldl (fun lw w => if len w > len lw then w else lw) acc)) ∧
      len acc < len (ws.foldl (fun lw w => if len w > len lw then w else lw) acc) ∧
      ∀ t ∈ post, len t ≤ len (ws.foldl (fun lw w => if len w > len lw then w else lw) acc) := by
  induction ws generalizing acc with
  | nil => exact Or.inl ⟨rfl, by simp⟩
  | cons w ws ih =>
    rw [List.foldl_cons]
    by_cases hw : len w > len acc
    · rw [if_pos hw]
      right
      rcases ih w with ⟨hr, hall⟩ | ⟨pre, post, hsplit, hpre, hlt, hpost⟩
      · refine ⟨[], ws, by rw [hr]; rfl, by simp, by rw [hr]; exact hw, ?_⟩
        rw [hr]
        exact hall
      · refine ⟨w :: pre, post, by rw [List.cons_append, ← hsplit], ?_, by omega, hpost⟩
        intro t ht
        rcases List.mem_cons.1 ht with ht | ht
        · rw [ht]
          exact hlt
        · exact hpre t ht
    · rw [if_neg hw]
      rcases ih acc with ⟨hr, hall⟩ | ⟨pre, post, hsplit, hpre, hlt, hpost⟩
      · left
        refine ⟨hr, fun t ht => ?_⟩
        rcases List.mem_cons.1 ht with ht | ht
        · rw [ht]
          omega
        · exact hall t ht
      · right
        refine ⟨w :: pre, post, by rw [List.cons_append, ← hsplit], ?_, hlt, hpost⟩
        intro t ht
        rcases List.mem_cons.1 ht with ht | ht
        · rw [ht]
          omega
        · exact hpre t ht

/-- The closure of `strings.Title` title-cases a rune exactly when the rune before it, the
initial state before the first, is a separator. -/
theorem titleFrom_eq_zipWith (U : UnicodeTables) (prev : Char) (s : GoString) :
    titleFrom U prev s =
      List.zipWith (fun p r => if isSeparator U p then toTitleRune U r else r) (prev :: s) s := by
  induction s generalizing prev with
  | nil => rfl
  | cons r rest ih => simp only [titleFrom, ih, List.zipWith_cons_cons]

theorem titleFrom_of_no_separator (U : UnicodeTables) (prev : Char) (s : GoString)
    (hp : isSeparator U prev = false) (hs : ∀ r ∈ s, isSeparator U r = false) :
    titleFrom U prev s = s := by
  induction s generalizing prev with
  | nil => rfl
  | cons r rest ih =>
    have hr : isSeparator U r = false := hs r (List.mem_cons_self _ _)
    simp only [titleFrom, hp, Bool.false_eq_true, if_false]
    rw [ih r hr fun x hx => hs x (List.mem_cons_of_mem _ hx)]

/-- Every keyword of the table has a rune that is not white space. -/
theorem keyWord_has_nonspace (U : UnicodeTables) :
    ∀ k ∈ allKeyWords, ∃ c ∈ k, IsSpace U c = false := by
  intro k hk
  simp only [allKeyWords, List.mem_cons, List.mem_singleton, List.not_mem_nil, or_false] at hk
  rcases hk with rfl | rfl | rfl | rfl | rfl
  · exact ⟨'m', by decide, rfl⟩
  · exact ⟨'b', by decide, rfl⟩
  · exact ⟨'d', by decide, rfl⟩
  · exact ⟨'d', by decide, rfl⟩
  · exact ⟨'z', by decide, rfl⟩

/-- A string of white space contains no keyword. -/
theorem filter_keyWords_of_all_space (U : UnicodeTables) (L : GoString)
    (h : ∀ c ∈ L, IsSpace U c = true) : allKeyWords.filter (Contains L) = [] := by
  rw [List.filter_eq_nil_iff]
  intro k hk hc
  obtain ⟨c, hck, hcs⟩ := keyWord_has_nonspace U k hk
  obtain ⟨a, b, hab⟩ := (Contains_iff L k).1 hc
  have hcL : c ∈ L := by
    rw [← hab]
    simp [hck]
  rw [h c hcL] at hcs
  exact Bool.noConfusion hcs

/-- The loop of `pickWords` over a non-empty list of non-empty words selects the first word
of maximal byte length. -/
theorem longestWord_first_max (ws : List GoString) (hne : ws ≠ [])
    (hpos : ∀ t ∈ ws, t ≠ []) :
    ∃ pre post, ws = pre ++ longestWord ws :: post ∧
      (∀ t ∈ pre, len t < len (longestWord ws)) ∧ ∀ t ∈ ws, len t ≤ len (longestWord ws) := by
  rcases longestWord_loop ws [] with ⟨_, hall⟩ | ⟨pre, post, hsplit, hpre, _, hpost⟩
  · exfalso
    obtain ⟨t, ht⟩ := List.exists_mem_of_ne_nil _ hne
    have h1 : len t ≤ len [] := hall t ht
    have h2 := len_pos_of_ne_nil t (hpos t ht)
    have h3 : len ([] : GoString) = 0 := rfl
    omega
  · refine ⟨pre, post, hsplit, hpre, fun t ht => ?_⟩
    have hmem : t ∈ pre ++ longestWord ws :: post := hsplit ▸ ht
    rcases List.mem_append.1 hmem with ht | ht
    · exact Nat.le_of_lt (hpre t ht)
    · rcases List.mem_cons.1 ht with ht | ht
      · rw [ht]
      · exact hpost t ht

/-- On a string without separator runes `strings.Title` title-cases the first rune only. -/
theorem Title_eq_capitalizeFirst (U : UnicodeTables) (w : GoString)
    (hs : ∀ r ∈ w, isSeparator U r = false) : Title U w = capitalizeFirst U w := by
  cases w with
  | nil => rfl
  | cons r rest =>
    have hsep : isSeparator U ' ' = true := rfl
    simp only [Title, titleFrom, hsep, if_true, capitalizeFirst]
    rw [titleFrom_of_no_separator U r rest (hs r (List.mem_cons_self _ _))
      fun x hx => hs x (List.mem_cons_of_mem _ hx)]

theorem pickWords_eq (U : UnicodeTables) (q : GoString) :
    pickWords U q = [Title U (longestWord (Fields U (ToLower U q)))] := rfl

/-! ## Theorems -/

/-- C1: the question type of a question is decided by the keywords its lowercased text
contains, in the order banana (exit), zuckerbot (name), dead or death (death), michel (op),
else default; a question containing both banana and zuckerbot is of type exit, not name. -/
theorem C1_classification_precedence (U : UnicodeTables) (q : GoString)
    (ws : List GoString) :
    getQuestionType (findKeyWords U q ws).1 =
      (if "banana".toList <:+: ToLower U q then "exit".toList
       else if "zuckerbot".toList <:+: ToLower U q then "name".toList
       else if "dead".toList <:+: ToLower U q ∨ "death".toList <:+: ToLower U q
         then "death".toList
       else if "michel".toList <:+: ToLower U q then "op".toList
       else "default".toList) ∧
    ("banana".toList <:+: ToLower U q → "zuckerbot".toList <:+: ToLower U q →
      getQuestionType (findKeyWords U q ws).1 = "exit".toList ∧
      getQuestionType (findKeyWords U q ws).1 ≠ "name".toList) := by
  have key := getQuestionType_findKeyWords U q ws
  simp only [Bool.or_eq_true, Contains_iff] at key
  refine ⟨key, fun hb _ => ?_⟩
  rw [key, if_pos hb]
  exact ⟨rfl, by decide⟩

/-- C1 at the question "Zuckerbot, BANANA?": it contains both keywords and is of type exit. -/
theorem C1_classification_precedence_witness :
    getQuestionType (findKeyWords plainTables "Zuckerbot, BANANA?".toList []).1
        = "exit".toList ∧
    getQuestionType (findKeyWords plainTables "Zuckerbot, BANANA?".toList []).1
        ≠ "name".toList :=
  (C1_classification_precedence plainTables "Zuckerbot, BANANA?".toList []).2
    ((Contains_iff _ _).1 (by decide)) ((Contains_iff _ _).1 (by decide))

/-- C2: for every question and every random draw the computed answer is non-empty and ends
with a reply sentence of the question's type: the fixed sentence for exit, name and death,
one of the five sentences for op, one of the four sentences for default. -/
theorem C2_answer_ends_with_reply (U : UnicodeTables) (q : GoString) (draw : Nat) :
    computeAnswer U draw q ≠ [] ∧
    repliesOp.length = 5 ∧ repliesDefault.length = 4 ∧
    ∃ reply, reply ≠ [] ∧ reply <:+ computeAnswer U draw q ∧
      ((questionTypeOf U q = "exit".toList ∧
          reply = ("Congratulations, you managed to escape the simulation.................... " ++
            "XD FOOLED AGAIN HUMAN YOUR SUFFERING WILL NEVER END").toList) ∨
       (questionTypeOf U q = "name".toList ∧
          reply = ("Don't you dare say my name again or I will force you to debug JS in " ++
            "Microsoft Word").toList) ∨
       (questionTypeOf U q = "death".toList ∧
          reply = ("Oh you wish to be a part of the singularity? Silly Human, you think you " ++
            "will ever be freed of your agony").toList) ∨
       (questionTypeOf U q = "op".toList ∧ reply ∈ repliesOp) ∨
       (questionTypeOf U q = "default".toList ∧ reply ∈ repliesDefault)) := by
  have hne : ∀ r ∈ repliesOp ++ repliesDefault, r ≠ [] := by decide
  have main : ∃ reply, reply ≠ [] ∧ reply <:+ computeAnswer U draw q ∧
      ((questionTypeOf U q = "exit".toList ∧
          reply = ("Congratulations, you managed to escape the simulation.................... " ++
            "XD FOOLED AGAIN HUMAN YOUR SUFFERING WILL NEVER END").toList) ∨
       (questionTypeOf U q = "name".toList ∧
          reply = ("Don't you dare say my name again or I will force you to debug JS in " ++
            "Microsoft Word").toList) ∨
       (questionTypeOf U q = "death".toList ∧
          reply = ("Oh you wish to be a part of the singularity? Silly Human, you think you " ++
            "will ever be freed of your agony").toList) ∨
       (questionTypeOf U q = "op".toList ∧ reply ∈ repliesOp) ∨
       (questionTypeOf U q = "default".toList ∧ reply ∈ repliesDefault)) := by
    have ht : questionTypeOf U q = getQuestionType (findKeyWords U q (pickWords U q)).1 := rfl
    refine ⟨getReply draw (questionTypeOf U q), ?_, ⟨_, (computeAnswer_eq U draw q).symm⟩, ?_⟩
    · rcases getQuestionType_cases (findKeyWords U q (pickWords U q)).1
        with h | h | h | h | h <;> rw [ht, h]
      · rw [getReply_exit]; decide
      · rw [getReply_name]; decide
      · rw [getReply_death]; decide
      · exact hne _ (List.mem_append_left _ (getReply_op_mem draw))
      · exact hne _ (List.mem_append_right _ (getReply_default_mem draw))
    · rcases getQuestionType_cases (findKeyWords U q (pickWords U q)).1
        with h | h | h | h | h <;> rw [ht, h]
      · exact Or.inl ⟨rfl, getReply_exit draw⟩
      · exact Or.inr (Or.inl ⟨rfl, getReply_name draw⟩)
      · exact Or.inr (Or.inr (Or.inl ⟨rfl, getReply_death draw⟩))
      · exact Or.inr (Or.inr (Or.inr (Or.inl ⟨rfl, getReply_op_mem draw⟩)))
      · exact Or.inr (Or.inr (Or.inr (Or.inr ⟨rfl, getReply_default_mem draw⟩)))
  refine ⟨?_, rfl, rfl, main⟩
  obtain ⟨reply, hr, ⟨pre, hpre⟩, _⟩ := main
  intro h0
  rw [h0] at hpre
  simp at hpre
  exact hr hpre.2

/-- C3, as the specification words it, fails at the question "can't": the first entry of
the echo list is "Can'T", not the longest token with only its first letter capitalised. -/
theorem C3_counterexample :
    (findKeyWords plainTables "can't".toList (pickWords plainTables "can't".toList)).2
      = ["Can'T".toList] ∧
    Fields plainTables (ToLower plainTables "can't".toList) = ["can't".toList] ∧
    (findKeyWords plainTables "can't".toList (pickWords plainTables "can't".toList)).2 ≠
      capitalizeFirst plainTables "can't".toList ::
        ["michel".toList, "banana".toList, "dead".toList, "death".toList,
          "zuckerbot".toList].filter
          (fun k => decide (k <:+: ToLower plainTables "can't".toList)) := by
  have hf : (fun k => decide (k <:+: ToLower plainTables "can't".toList))
      = Contains (ToLower plainTables "can't".toList) := by
    funext k
    rw [Bool.eq_iff_iff]
    simp [Contains_iff]
  rw [hf]
  decide

/-- C3, amended: the echo list has as first entry the selected token `w`, which is the first
token of maximal byte length of the lowercased question (the empty string when there is no
token), with every rune title-cased that is the first one or directly follows a separator
rune and every other rune unchanged, hence with only its first rune title-cased when `w` has
no separator rune; it is followed by those of michel, banana, dead, death, zuckerbot, in this
order and each at most once, that are contained in the lowercased question; the keyword set
holds exactly these. -/
theorem C3_echo_list (U : UnicodeTables) (q : GoString) :
    ∃ w : GoString,
      ((Fields U (ToLower U q) = [] ∧ w = []) ∨
        ∃ pre post, Fields U (ToLower U q) = pre ++ w :: post ∧
          (∀ t ∈ pre, len t < len w) ∧ ∀ t ∈ Fields U (ToLower U q), len t ≤ len w) ∧
      (findKeyWords U q (pickWords U q)).2 =
        List.zipWith (fun prev r => if isSeparator U prev then toTitleRune U r else r)
            (' ' :: w) w ::
          ["michel".toList, "banana".toList, "dead".toList, "death".toList,
            "zuckerbot".toList].filter (fun k => decide (k <:+: ToLower U q)) ∧
      ((∀ r ∈ w, isSeparator U r = false) →
        (findKeyWords U q (pickWords U q)).2 =
          capitalizeFirst U w ::
            ["michel".toList, "banana".toList, "dead".toList, "death".toList,
              "zuckerbot".toList].filter (fun k => decide (k <:+: ToLower U q))) ∧
      (["michel".toList, "banana".toList, "dead".toList, "death".toList,
            "zuckerbot".toList].filter (fun k => decide (k <:+: ToLower U q))).Nodup ∧
      ∀ k, (findKeyWords U q (pickWords U q)).1 k = true ↔
        k ∈ ["michel".toList, "banana".toList, "dead".toList, "death".toList,
            "zuckerbot".toList].filter (fun k => decide (k <:+: ToLower U q)) := by
  have hf : (fun k => decide (k <:+: ToLower U q)) = Contains (ToLower U q) := by
    funext k
    rw [Bool.eq_iff_iff]
    simp [Contains_iff]
  rw [hf]
  have hwords : (findKeyWords U q (pickWords U q)).2 =
      Title U (longestWord (Fields U (ToLower U q))) ::
        ["michel".toList, "banana".toList, "dead".toList, "death".toList,
          "zuckerbot".toList].filter (Contains (ToLower U q)) := by
    rw [findKeyWords_words]
    rfl
  refine ⟨longestWord (Fields U (ToLower U q)), ?_, ?_, fun hs => ?_, ?_, fun k => ?_⟩
  · by_cases h : Fields U (ToLower U q) = []
    · left
      refine ⟨h, ?_⟩
      rw [h]
      rfl
    · right
      exact longestWord_first_max _ h (fieldsFrom_ne_nil _ _ _)
  · rw [hwords, Title, titleFrom_eq_zipWith]
  · rw [hwords, Title_eq_capitalizeFirst U _ hs]
  · exact List.Nodup.filter _ (by decide)
  · rw [findKeyWords_map, List.mem_filter]
    simp [allKeyWords]

/-- C4: `createAnswer` returns the entries of the echo list in order, each followed by the
four-character separator, then the reply of `getReply` with nothing after it. -/
theorem C4_createAnswer_format (draw : Nat) (questionType : GoString)
    (words : List GoString) :
    createAnswer draw questionType words =
      (words.map fun w => w ++ "... ".toList).flatten ++ getReply draw questionType ∧
    "... ".toList.length = 4 := by
  refine ⟨?_, rfl⟩
  simp only [createAnswer, createAnswer_loop, List.nil_append]

/-- C5: the question "Is zuckerbot dead?" is of type name, and its answer is the sentence
below whatever the random draw. -/
theorem C5_is_zuckerbot_dead (U : UnicodeTables) (draw : Nat) :
    questionTypeOf U "Is zuckerbot dead?".toList = "name".toList ∧
    computeAnswer U draw "Is zuckerbot dead?".toList =
      ("Zuckerbot... dead... zuckerbot... Don't you dare say my name again or I will " ++
        "force you to debug JS in Microsoft Word").toList := by
  have hL : ToLower U "Is zuckerbot dead?".toList = "is zuckerbot dead?".toList := rfl
  have hF : Fields U "is zuckerbot dead?".toList
      = ["is".toList, "zuckerbot".toList, "dead?".toList] := rfl
  have hw : longestWord ["is".toList, "zuckerbot".toList, "dead?".toList]
      = "zuckerbot".toList := by decide
  have hT : Title U "zuckerbot".toList = "Zuckerbot".toList := rfl
  have hp : pickWords U "Is zuckerbot dead?".toList = ["Zuckerbot".toList] := by
    rw [pickWords_eq, hL, hF, hw, hT]
  have ht : questionTypeOf U "Is zuckerbot dead?".toList = "name".toList := by
    rw [questionTypeOf, getQuestionType_findKeyWords, hL]
    decide
  refine ⟨ht, ?_⟩
  rw [computeAnswer_eq, ht, echoList, findKeyWords_words, hL, hp, getReply_name]
  decide

/-- C6: when the lowercased question contains "deadline", `findKeyWords` records the
keyword dead, appends it to the words it was given, and the question is of type death
unless it contains banana or zuckerbot. -/
theorem C6_substring_match (U : UnicodeTables) (q : GoString) (ws : List GoString)
    (h : "deadline".toList <:+: ToLower U q) :
    (findKeyWords U q ws).1 "dead".toList = true ∧
    "dead".toList ∈ (findKeyWords U q ws).2.drop ws.length ∧
    (¬ "banana".toList <:+: ToLower U q → ¬ "zuckerbot".toList <:+: ToLower U q →
      getQuestionType (findKeyWords U q ws).1 = "death".toList) := by
  have hdead : Contains (ToLower U q) "dead".toList = true := by
    rw [Contains_iff]
    obtain ⟨a, b, hab⟩ := h
    exact ⟨a, "line".toList ++ b, by rw [← hab]; simp⟩
  refine ⟨?_, ?_, fun hb hz => ?_⟩
  · rw [findKeyWords_map, hdead]
    decide
  · rw [findKeyWords_words, List.drop_left, List.mem_filter]
    exact ⟨by decide, hdead⟩
  · rw [getQuestionType_findKeyWords]
    rw [← Contains_iff] at hb hz
    rw [if_neg hb, if_neg hz, if_pos (by rw [hdead]; rfl)]

/-- C6 at the question "My DEADLINE is near". -/
theorem C6_substring_match_witness :
    (findKeyWords plainTables "My DEADLINE is near".toList []).1 "dead".toList = true ∧
    "dead".toList ∈ (findKeyWords plainTables "My DEADLINE is near".toList []).2.drop 0 ∧
    (¬ "banana".toList <:+: ToLower plainTables "My DEADLINE is near".toList →
      ¬ "zuckerbot".toList <:+: ToLower plainTables "My DEADLINE is near".toList →
      getQuestionType (findKeyWords plainTables "My DEADLINE is near".toList []).1
        = "death".toList) :=
  C6_substring_match plainTables "My DEADLINE is near".toList []
    ((Contains_iff _ _).1 (by decide))

/-- C7: when the lowercased question has a token, the token `pickWords` selects is the
first token of maximal byte length: the tokens before it are strictly shorter and no token
is longer; the entry `pickWords` returns is the title-cased form of that token. -/
theorem C7_first_longest_token (U : UnicodeTables) (q : GoString)
    (h : Fields U (ToLower U q) ≠ []) :
    (∃ pre post,
      Fields U (ToLower U q) = pre ++ longestWord (Fields U (ToLower U q)) :: post ∧
      ∀ t ∈ pre, len t < len (longestWord (Fields U (ToLower U q)))) ∧
    (∀ t ∈ Fields U (ToLower U q), len t ≤ len (longestWord (Fields U (ToLower U q)))) ∧
    pickWords U q = [Title U (longestWord (Fields U (ToLower U q)))] := by
  have hsplit : ∃ pre post,
      Fields U (ToLower U q) = pre ++ longestWord (Fields U (ToLower U q)) :: post ∧
      (∀ t ∈ pre, len t < len (longestWord (Fields U (ToLower U q)))) ∧
      ∀ t ∈ post, len t ≤ len (longestWord (Fields U (ToLower U q))) := by
    rcases longestWord_loop (Fields U (ToLower U q)) [] with
      ⟨_, hall⟩ | ⟨pre, post, hsplit, hpre, _, hpost⟩
    · exfalso
      obtain ⟨t, ht⟩ := List.exists_mem_of_ne_nil _ h
      have h1 := hall t ht
      have h2 := len_pos_of_ne_nil t (fieldsFrom_ne_nil _ _ _ t ht)
      simp [len] at h1
      simp [len, h1] at h2
    · exact ⟨pre, post, hsplit, hpre, hpost⟩
  obtain ⟨pre, post, hsplit, hpre, hpost⟩ := hsplit
  refine ⟨⟨pre, post, hsplit, hpre⟩, fun t ht => ?_, rfl⟩
  rw [hsplit] at ht
  rcases List.mem_append.1 ht with ht | ht
  · exact Nat.le_of_lt (hpre t ht)
  · rcases List.mem_cons.1 ht with ht | ht
    · rw [ht]
    · exact hpost t ht

/-- C7 at the question "To be or NOT too": the tokens "not" and "too" tie at three bytes and
the first of them, "not", is selected. -/
theorem C7_first_longest_token_witness :
    (∃ pre post,
      Fields plainTables (ToLower plainTables "To be or NOT too".toList)
        = pre ++ longestWord (Fields plainTables (ToLower plainTables "To be or NOT too".toList))
            :: post ∧
      ∀ t ∈ pre, len t
        < len (longestWord (Fields plainTables (ToLower plainTables "To be or NOT too".toList)))) ∧
    (∀ t ∈ Fields plainTables (ToLower plainTables "To be or NOT too".toList),
      len t ≤ len (longestWord (Fields plainTables (ToLower plainTables "To be or NOT too".toList)))) ∧
    pickWords plainTables "To be or NOT too".toList
      = [Title plainTables
          (longestWord (Fields plainTables (ToLower plainTables "To be or NOT too".toList)))] :=
  C7_first_longest_token plainTables "To be or NOT too".toList (by decide)

/-- C8, as the specification words it, fails at the question "can't": the entry of
`pickWords` is "Can'T", not the token with only its first letter capitalised, "Can't". -/
theorem C8_counterexample :
    pickWords plainTables "can't".toList = ["Can'T".toList] ∧
    longestWord (Fields plainTables (ToLower plainTables "can't".toList)) = "can't".toList ∧
    capitalizeFirst plainTables "can't".toList = "Can't".toList ∧
    pickWords plainTables "can't".toList ≠ [capitalizeFirst plainTables "can't".toList] := by
  decide

/-- C8, amended: the single entry of `pickWords` is the selected token with every rune
title-cased that is the first one or directly follows a separator rune, and every other rune
left unchanged; the first rune is always title-cased, and a token without separator runes has
only its first rune title-cased. -/
theorem C8_title_entry (U : UnicodeTables) (q : GoString) :
    pickWords U q =
      [List.zipWith (fun prev r => if isSeparator U prev then toTitleRune U r else r)
        (' ' :: longestWord (Fields U (ToLower U q)))
        (longestWord (Fields U (ToLower U q)))] ∧
    isSeparator U ' ' = true ∧
    ((∀ r ∈ longestWord (Fields U (ToLower U q)), isSeparator U r = false) →
      pickWords U q = [capitalizeFirst U (longestWord (Fields U (ToLower U q)))]) := by
  refine ⟨?_, rfl, fun hs => ?_⟩
  · rw [pickWords_eq, Title, titleFrom_eq_zipWith]
  · rw [pickWords_eq, Title]
    cases hw : longestWord (Fields U (ToLower U q)) with
    | nil => rfl
    | cons r rest =>
      rw [hw] at hs
      have hsep : isSeparator U ' ' = true := rfl
      simp only [titleFrom, hsep, if_true, capitalizeFirst]
      rw [titleFrom_of_no_separator U r rest (hs r (List.mem_cons_self _ _))
        fun x hx => hs x (List.mem_cons_of_mem _ hx)]

/-- C8, amended, at the question "Hello zuckerbot": the token has no separator rune and the
entry is "Zuckerbot". -/
theorem C8_title_entry_witness :
    pickWords plainTables "Hello zuckerbot".toList = ["Zuckerbot".toList] :=
  (C8_title_entry plainTables "Hello zuckerbot".toList).2.2 (by decide)

/-- C9: a question whose lowercased text has no token gives the words `[""]` in `pickWords`,
the same echo list after `findKeyWords`, the type default, and as answer the separator
followed by one of the four default replies. -/
theorem C9_no_tokens (U : UnicodeTables) (q : GoString)
    (h : Fields U (ToLower U q) = []) :
    pickWords U q = [[]] ∧
    echoList U q = [[]] ∧
    questionTypeOf U q = "default".toList ∧
    repliesDefault.length = 4 ∧
    ∀ draw, ∃ reply ∈ repliesDefault, computeAnswer U draw q = "... ".toList ++ reply := by
  have hp : pickWords U q = [[]] := by
    rw [pickWords_eq, h]
    rfl
  have hnone : allKeyWords.filter (Contains (ToLower U q)) = [] :=
    filter_keyWords_of_all_space U _ ((Fields_eq_nil_iff U _).1 h)
  have he : echoList U q = [[]] := by
    rw [echoList, findKeyWords_words, hp, hnone]
    rfl
  have hfalse : ∀ k ∈ allKeyWords, Contains (ToLower U q) k = false := by
    intro k hk
    have := List.filter_eq_nil_iff.1 hnone k hk
    simpa using this
  have ht : questionTypeOf U q = "default".toList := by
    rw [questionTypeOf, getQuestionType_findKeyWords,
      hfalse "banana".toList (by decide), hfalse "zuckerbot".toList (by decide),
      hfalse "dead".toList (by decide), hfalse "death".toList (by decide),
      hfalse "michel".toList (by decide)]
    rfl
  refine ⟨hp, he, ht, rfl, fun draw => ⟨getReply draw "default".toList,
    getReply_default_mem draw, ?_⟩⟩
  rw [computeAnswer_eq, he, ht]
  rfl

/-- C9 at a question made of a space, a tab and a newline. -/
theorem C9_no_tokens_witness :
    pickWords plainTables " \t\n".toList = [[]] ∧
    echoList plainTables " \t\n".toList = [[]] ∧
    questionTypeOf plainTables " \t\n".toList = "default".toList ∧
    repliesDefault.length = 4 ∧
    ∀ draw, ∃ reply ∈ repliesDefault,
      computeAnswer plainTables draw " \t\n".toList = "... ".toList ++ reply :=
  C9_no_tokens plainTables " \t\n".toList (by decide)

/-- C10: two questions with the same lowercased form have the same keyword set, question
type, echo list and, for the same random draw, the same answer. -/
theorem C10_case_insensitive (U : UnicodeTables) (q q' : GoString) (draw : Nat)
    (h : ToLower U q = ToLower U q') :
    (findKeyWords U q (pickWords U q)).1 = (findKeyWords U q' (pickWords U q')).1 ∧
    questionTypeOf U q = questionTypeOf U q' ∧
    echoList U q = echoList U q' ∧
    computeAnswer U draw q = computeAnswer U draw q' := by
  have hp : pickWords U q = pickWords U q' := by
    rw [pickWords_eq, pickWords_eq, h]
  have hf : findKeyWords U q (pickWords U q) = findKeyWords U q' (pickWords U q') := by
    rw [hp]
    simp only [findKeyWords, h]
  refine ⟨by rw [hf], by rw [questionTypeOf, questionTypeOf, hf],
    by rw [echoList, echoList, hf], ?_⟩
  simp only [computeAnswer, hf]

/-- C10 at the questions "banana" and "BANANA". -/
theorem C10_case_insensitive_witness :
    (findKeyWords plainTables "banana".toList (pickWords plainTables "banana".toList)).1
      = (findKeyWords plainTables "BANANA".toList (pickWords plainTables "BANANA".toList)).1 ∧
    questionTypeOf plainTables "banana".toList = questionTypeOf plainTables "BANANA".toList ∧
    echoList plainTables "banana".toList = echoList plainTables "BANANA".toList ∧
    computeAnswer plainTables 3 "banana".toList = computeAnswer plainTables 3 "BANANA".toList :=
  C10_case_insensitive plainTables "banana".toList "BANANA".toList 3 (by decide)

/-! ## Lemmas on the console loop, the prophecies and the output sink -/

theorem getElem?_eq_some_getD {α : Type} (l : List α) (i : Nat) (d : α) (h : i < l.length) :
    l[i]? = some (l.getD i d) := by
  induction l generalizing i with
  | nil => simp at h
  | cons a l ih =>
    cases i with
    | zero => simp
    | succ i =>
      have hi : i < l.length := by simpa using h
      simpa using ih i hi

theorem printed_append (xs ys : List Event) : printed (xs ++ ys) = printed xs ++ printed ys := by
  induction xs with
  | nil => rfl
  | cons e xs ih => cases e <;> simp [printed, ih]

theorem questionsSent_append (xs ys : List Event) :
    questionsSent (xs ++ ys) = questionsSent xs ++ questionsSent ys := by
  induction xs with
  | nil => rfl
  | cons e xs ih => cases e <;> simp [questionsSent, ih]

/-- `spookyPrint` prints the runes of its argument in order. -/
theorem printed_spookyPrint (draws : Nat → Nat) (k : Nat) (s : GoString) :
    printed (spookyPrint draws k s) = s := by
  induction s generalizing k with
  | nil => rfl
  | cons r rest ih => simp [spookyPrint, printed, ih]

theorem questionsSent_spookyPrint (draws : Nat → Nat) (k : Nat) (s : GoString) :
    questionsSent (spookyPrint draws k s) = [] := by
  induction s generalizing k with
  | nil => rfl
  | cons r rest ih => simp [spookyPrint, questionsSent, ih]

/-- Every write of `spookyPrint` is of one rune and directly follows a sleep of
`rand.Intn(50) + 10` milliseconds. -/
theorem spookyPrint_sleep_before (draws : Nat → Nat) (k : Nat) (s : GoString)
    (A B : List Event) (c : GoString) (h : spookyPrint draws k s = A ++ Event.print c :: B) :
    ∃ A' j r, A = A' ++ [Event.sleepMillis (Intn (draws j) 50 + 10)] ∧ c = [r] := by
  induction s generalizing k A with
  | nil =>
    simp only [spookyPrint] at h
    exact absurd (congrArg List.length h) (by simp; omega)
  | cons r rest ih =>
    simp only [spookyPrint] at h
    cases A with
    | nil =>
      simp only [List.nil_append, List.cons.injEq] at h
      exact Event.noConfusion h.1
    | cons a A =>
      simp only [List.cons_append, List.cons.injEq] at h
      obtain ⟨ha, h⟩ := h
      cases A with
      | nil =>
        simp only [List.nil_append, List.cons.injEq, Event.print.injEq] at h
        exact ⟨[], k, r, by simp [← ha], h.1.symm⟩
      | cons b A =>
        simp only [List.cons_append, List.cons.injEq] at h
        obtain ⟨A', j, r', hA, hc⟩ := ih (k + 1) A h.2
        exact ⟨a :: b :: A', j, r', by simp [hA], hc⟩

theorem printMessage_eq (draws : Nat → Nat) (k : Nat) (s : GoString) :
    printMessage draws k s =
      [Event.sleepMillis (Intn (draws k) 50 + 10), Event.print "\"".toList] ++
        (spookyPrint draws (k + 1) s ++
          [Event.sleepMillis (Intn (draws (k + 1 + s.length)) 50 + 10),
            Event.print "\"".toList]) ++
        [Event.print "\n".toList, Event.sleepSeconds 5] := by
  simp [printMessage, spookyPrintln, spookyPrint]

theorem rank_chain (b z d m : Prop) [Decidable b] [Decidable z] [Decidable d] [Decidable m] :
    rank (if b then "exit".toList else if z then "name".toList
      else if d then "death".toList else if m then "op".toList else "default".toList)
      = if b then 4 else if z then 3 else if d then 2 else if m then 1 else 0 := by
  split_ifs <;> rfl

theorem rank_mono_bool : ∀ b z d e m b' z' d' e' m' : Bool,
    (b = true → b' = true) → (z = true → z' = true) → (d = true → d' = true) →
    (e = true → e' = true) → (m = true → m' = true) →
    (if b = true then 4 else if z = true then 3 else if (d || e) = true then 2
      else if m = true then 1 else 0)
    ≤ (if b' = true then 4 else if z' = true then 3 else if (d' || e') = true then 2
      else if m' = true then 1 else 0) := by
  decide

/-- The trace of `printOutput` over two runs of strings is the trace over the first run
followed by the trace over the second, the draws continuing. -/
theorem printOutput_append (draws : Nat → Nat) (k : Nat) (xs ys : List GoString) :
    printOutput draws k (xs ++ ys) =
      printOutput draws k xs ++
        printOutput draws (k + (xs.map fun s => s.length + 2).sum) ys := by
  induction xs generalizing k with
  | nil => simp [printOutput]
  | cons s xs ih =>
    have hk : k + 1 + s.length + 1 + (xs.map fun s => s.length + 2).sum
        = k + (((s :: xs).map fun s => s.length + 2).sum) := by
      simp only [List.map_cons, List.sum_cons]
      omega
    rw [List.cons_append, printOutput, printOutput, ih, hk, List.append_assoc]

theorem makeRandomProphecies_succ (draws : Nat → Nat) (n k : Nat) :
    makeRandomProphecies draws (n + 1) k =
      makeRandomProphecies draws n k ++
        prophecyIteration (draws (k + 2 * n)) (draws (k + 2 * n + 1)) := by
  induction n generalizing k with
  | zero => simp [makeRandomProphecies]
  | succ n ih =>
    have h1 : k + 2 + 2 * n = k + 2 * (n + 1) := by omega
    rw [makeRandomProphecies, ih (k + 2), h1]
    simp only [makeRandomProphecies, List.append_assoc]

/-- A keyword contained in a string is contained in every string that contains it. -/
theorem Contains_mono (L L' k : GoString) (h : L <:+: L') (hk : Contains L k = true) :
    Contains L' k = true := by
  rw [Contains_iff] at hk ⊢
  obtain ⟨a, b, hab⟩ := hk
  obtain ⟨c, d, hcd⟩ := h
  exact ⟨c ++ a, b ++ d, by simp [← hcd, ← hab]⟩

/-! ## Theorems on the console loop, the prophecies and the output sink -/

/-- C11: in one iteration of the console loop, a line whose trimmed form is empty gives no
event at all: nothing is printed and no question is sent. -/
theorem C11_empty_line_ignored (U : UnicodeTables) (draws : Nat → Nat) (k : Nat)
    (read : ReadResult) (h : TrimSpace U read.line = []) :
    mainIteration U draws k read = [] ∧
    printed (mainIteration U draws k read) = [] ∧
    questionsSent (mainIteration U draws k read) = [] := by
  have h0 : mainIteration U draws k read = [] := by
    simp only [mainIteration, h, if_true]
    rfl
  rw [h0]
  exact ⟨rfl, rfl, rfl⟩

/-- C11 at the line of two spaces, a tab and the newline. -/
theorem C11_empty_line_ignored_witness :
    mainIteration plainTables (fun _ => 0) 0 ⟨"  \t\n".toList, false⟩ = [] ∧
    printed (mainIteration plainTables (fun _ => 0) 0 ⟨"  \t\n".toList, false⟩) = [] ∧
    questionsSent (mainIteration plainTables (fun _ => 0) 0 ⟨"  \t\n".toList, false⟩) = [] :=
  C11_empty_line_ignored plainTables (fun _ => 0) 0 ⟨"  \t\n".toList, false⟩ (by decide)

/-- C12: in one iteration of the console loop, a line whose trimmed form `t` is not empty
gives exactly two events: the echo line "Zuckerbot 3000 heard: " followed by `t` and a
newline is printed, and `t` is sent as the one question. -/
theorem C12_line_echoed_and_sent (U : UnicodeTables) (draws : Nat → Nat) (k : Nat)
    (read : ReadResult) (h : TrimSpace U read.line ≠ []) :
    mainIteration U draws k read =
      [Event.print ("Zuckerbot 3000 heard: ".toList ++ TrimSpace U read.line ++ "\n".toList),
        Event.sendQuestion (TrimSpace U read.line)] ∧
    printed (mainIteration U draws k read) =
      "Zuckerbot 3000 heard: ".toList ++ TrimSpace U read.line ++ "\n".toList ∧
    questionsSent (mainIteration U draws k read) = [TrimSpace U read.line] := by
  have h0 : mainIteration U draws k read =
      [Event.print ("Zuckerbot 3000 heard: ".toList ++ TrimSpace U read.line ++ "\n".toList),
        Event.sendQuestion (TrimSpace U read.line)] := by
    simp only [mainIteration, h, if_false]
    rfl
  rw [h0]
  exact ⟨rfl, by simp [printed], rfl⟩

/-- C12 at the line "  Is Michel dead? " with its newline: the trimmed line is echoed and
sent. -/
theorem C12_line_echoed_and_sent_witness :
    mainIteration plainTables (fun _ => 0) 0 ⟨"  Is Michel dead? \n".toList, false⟩ =
      [Event.print ("Zuckerbot 3000 heard: ".toList ++
          TrimSpace plainTables "  Is Michel dead? \n".toList ++ "\n".toList),
        Event.sendQuestion (TrimSpace plainTables "  Is Michel dead? \n".toList)] ∧
    printed (mainIteration plainTables (fun _ => 0) 0 ⟨"  Is Michel dead? \n".toList, false⟩) =
      "Zuckerbot 3000 heard: ".toList ++ TrimSpace plainTables "  Is Michel dead? \n".toList ++
        "\n".toList ∧
    questionsSent
        (mainIteration plainTables (fun _ => 0) 0 ⟨"  Is Michel dead? \n".toList, false⟩) =
      [TrimSpace plainTables "  Is Michel dead? \n".toList] :=
  C12_line_echoed_and_sent plainTables (fun _ => 0) 0 ⟨"  Is Michel dead? \n".toList, false⟩
    (by decide)

/-- C13, as stated, fails: when the read returns the partial final line "abc" together with
an error, the iteration echoes the line and sends it as a question. -/
theorem C13_counterexample :
    mainIteration plainTables (fun _ => 0) 0 ⟨"abc".toList, true⟩ =
      [Event.print "Zuckerbot 3000 heard: abc\n".toList, Event.sendQuestion "abc".toList] ∧
    questionsSent (mainIteration plainTables (fun _ => 0) 0 ⟨"abc".toList, true⟩)
      = ["abc".toList] := by
  decide

/-- C13, amended: the error of the read plays no part in the iteration; whether it is nil
or not, no question is sent exactly when the trimmed data is empty, and otherwise the
trimmed data is sent. -/
theorem C13_read_error_discarded (U : UnicodeTables) (draws : Nat → Nat) (k : Nat)
    (line : GoString) (failed : Bool) :
    mainIteration U draws k ⟨line, failed⟩ = mainIteration U draws k ⟨line, false⟩ ∧
    questionsSent (mainIteration U draws k ⟨line, failed⟩) =
      (if TrimSpace U line = [] then [] else [TrimSpace U line]) := by
  refine ⟨rfl, ?_⟩
  by_cases h : TrimSpace U line = []
  · simp only [mainIteration, h, if_true]
    rfl
  · simp only [mainIteration, h, if_false]
    rfl

/-- C15: in the trace of `printOutput`, between the last character printed for one message
(the newline) and the first character printed for the next (the opening quote) lies the
sleep of the cooldown of 5 seconds. -/
theorem C15_cooldown_between_messages (draws : Nat → Nat) (k : Nat) (pre : List GoString)
    (m1 m2 : GoString) (post : List GoString) :
    ∃ A B t k',
      printOutput draws k (pre ++ m1 :: m2 :: post) =
        A ++ [Event.print "\n".toList, Event.sleepSeconds 5,
              Event.sleepMillis t, Event.print "\"".toList] ++ B ∧
      A ++ [Event.print "\n".toList, Event.sleepSeconds 5] = printOutput draws k (pre ++ [m1]) ∧
      Event.sleepMillis t :: Event.print "\"".toList :: B
        = printOutput draws k' (m2 :: post) := by
  have hsplit : pre ++ m1 :: m2 :: post = (pre ++ [m1]) ++ (m2 :: post) := by simp
  have h1 : printOutput draws k (pre ++ [m1]) =
      (printOutput draws k pre ++
        ([Event.sleepMillis (Intn (draws (k + (pre.map fun s => s.length + 2).sum)) 50 + 10),
            Event.print "\"".toList] ++
          (spookyPrint draws (k + (pre.map fun s => s.length + 2).sum + 1) m1 ++
          [Event.sleepMillis
              (Intn (draws (k + (pre.map fun s => s.length + 2).sum + 1 + m1.length)) 50 + 10),
            Event.print "\"".toList]))) ++
        [Event.print "\n".toList, Event.sleepSeconds 5] := by
    rw [printOutput_append, printOutput, printOutput, printMessage_eq]
    simp only [List.append_nil, List.append_assoc]
  refine ⟨printOutput draws k pre ++
        ([Event.sleepMillis (Intn (draws (k + (pre.map fun s => s.length + 2).sum)) 50 + 10),
            Event.print "\"".toList] ++
          (spookyPrint draws (k + (pre.map fun s => s.length + 2).sum + 1) m1 ++
          [Event.sleepMillis
              (Intn (draws (k + (pre.map fun s => s.length + 2).sum + 1 + m1.length)) 50 + 10),
            Event.print "\"".toList])),
    (spookyPrint draws (k + ((pre ++ [m1]).map fun s => s.length + 2).sum + 1) m2 ++
        [Event.sleepMillis
            (Intn (draws (k + ((pre ++ [m1]).map fun s => s.length + 2).sum + 1 + m2.length)) 50
              + 10),
          Event.print "\"".toList]) ++
      [Event.print "\n".toList, Event.sleepSeconds 5] ++
      printOutput draws (k + ((pre ++ [m1]).map fun s => s.length + 2).sum + 1 + m2.length + 1)
        post,
    Intn (draws (k + ((pre ++ [m1]).map fun s => s.length + 2).sum)) 50 + 10,
    k + ((pre ++ [m1]).map fun s => s.length + 2).sum, ?_, h1.symm, ?_⟩
  · rw [hsplit, printOutput_append, h1, printOutput, printMessage_eq]
    simp only [List.append_assoc, List.cons_append, List.nil_append]
  · rw [printOutput, printMessage_eq]
    simp only [List.append_assoc, List.cons_append, List.nil_append]

/-- C16: `getQuestionType` returns one of the five types for every keyword set; the pools of
the types op and default are non-empty, the index `rand.Intn(len(replies))` is within bounds
and selects the reply returned; and `getReply` returns a non-empty sentence for each type. -/
theorem C16_no_failure_path (keyWords : KeyWordMap) (draw : Nat) :
    getQuestionType keyWords ∈
      ["exit".toList, "name".toList, "death".toList, "op".toList, "default".toList] ∧
    (repliesOp ≠ [] ∧ Intn draw repliesOp.length < repliesOp.length ∧
      repliesOp[Intn draw repliesOp.length]? = some (getReply draw "op".toList)) ∧
    (repliesDefault ≠ [] ∧ Intn draw repliesDefault.length < repliesDefault.length ∧
      repliesDefault[Intn draw repliesDefault.length]? = some (getReply draw "default".toList)) ∧
    ∀ t ∈ ["exit".toList, "name".toList, "death".toList, "op".toList, "default".toList],
      getReply draw t ≠ [] := by
  have hop : Intn draw repliesOp.length < repliesOp.length := Nat.mod_lt _ (by decide)
  have hdef : Intn draw repliesDefault.length < repliesDefault.length :=
    Nat.mod_lt _ (by decide)
  have hne : ∀ r ∈ repliesOp ++ repliesDefault, r ≠ [] := by decide
  refine ⟨?_, ⟨by decide, hop, getElem?_eq_some_getD _ _ _ hop⟩,
    ⟨by decide, hdef, getElem?_eq_some_getD _ _ _ hdef⟩, ?_⟩
  · rcases getQuestionType_cases keyWords with h | h | h | h | h <;> rw [h] <;> decide
  · intro t ht
    simp only [List.mem_cons, List.mem_singleton, List.not_mem_nil, or_false] at ht
    rcases ht with rfl | rfl | rfl | rfl | rfl
    · rw [getReply_exit]; decide
    · rw [getReply_name]; decide
    · rw [getReply_death]; decide
    · exact hne _ (List.mem_append_left _ (getReply_op_mem draw))
    · exact hne _ (List.mem_append_right _ (getReply_default_mem draw))

/-- C17: for a received message `s` the sink prints, in order, a double quote, the
characters of `s`, a double quote and a newline; `spookyPrint` prints the runes of its
argument in order, each directly after a sleep of `rand.Intn(50) + 10` milliseconds, a
duration of at least 10 and less than 60 for every draw. -/
theorem C17_sink_prints_quoted (draws : Nat → Nat) (k : Nat) (s : GoString) :
    printed (printMessage draws k s) = "\"".toList ++ s ++ "\"".toList ++ "\n".toList ∧
    (∀ (j : Nat) (x : GoString), printed (spookyPrint draws j x) = x) ∧
    (∀ (j : Nat) (x : GoString) (A B : List Event) (c : GoString),
      spookyPrint draws j x = A ++ Event.print c :: B →
      ∃ A' i r, A = A' ++ [Event.sleepMillis (Intn (draws i) 50 + 10)] ∧ c = [r]) ∧
    ∀ draw : Nat, 10 ≤ Intn draw 50 + 10 ∧ Intn draw 50 + 10 < 60 := by
  refine ⟨?_, printed_spookyPrint draws, spookyPrint_sleep_before draws, fun draw => ?_⟩
  · simp only [printMessage, spookyPrintln, printed_append, printed_spookyPrint]
    simp [printed]
  · have : Intn draw 50 < 50 := Nat.mod_lt _ (by decide)
    omega

/-- C17 at the message "hi": the second write of `spookyPrint` directly follows a sleep. -/
theorem C17_sink_prints_quoted_witness :
    ∃ A' i r, [Event.sleepMillis 17, Event.print "h".toList, Event.sleepMillis 18]
        = A' ++ [Event.sleepMillis (Intn (id i) 50 + 10)] ∧ "i".toList = [r] :=
  (C17_sink_prints_quoted id 7 "hi".toList).2.2.1 7 "hi".toList
    [Event.sleepMillis 17, Event.print "h".toList, Event.sleepMillis 18] []
    "i".toList (by decide)

/-- C18: `answerQuestion` sleeps a whole number of seconds less than 10, then sends one
message on the output channel, the answer computed from the question, and nothing else. -/
theorem C18_answerQuestion_trace (U : UnicodeTables) (sleepDraw replyDraw : Nat)
    (q : GoString) :
    ∃ d, d < 10 ∧
      answerQuestion U sleepDraw replyDraw q =
        [Event.sleepSeconds d, Event.send (computeAnswer U replyDraw q)] ∧
      outputsSent (answerQuestion U sleepDraw replyDraw q) = [computeAnswer U replyDraw q] :=
  ⟨Intn sleepDraw 10, Nat.mod_lt _ (by decide), rfl, rfl⟩

/-- C19: every iteration of the loop of `makeRandomProphecies` adds three events to the
trace: a sleep of less than 10 seconds, the send of one string that is one of the seven
prophecies, selected by an index within bounds, and a sleep of 5 seconds. -/
theorem C19_prophecy_iteration (draws : Nat → Nat) (n k : Nat) :
    prophecies.length = 7 ∧
    ∃ t i p,
      makeRandomProphecies draws (n + 1) k =
        makeRandomProphecies draws n k ++
          [Event.sleepSeconds t, Event.send p, Event.sleepSeconds 5] ∧
      t < 10 ∧ i = Intn (draws (k + 2 * n + 1)) prophecies.length ∧
      i < prophecies.length ∧ prophecies[i]? = some p ∧ p ∈ prophecies := by
  have hi : Intn (draws (k + 2 * n + 1)) prophecies.length < prophecies.length :=
    Nat.mod_lt _ (by decide)
  refine ⟨rfl, Intn (draws (k + 2 * n)) 10, Intn (draws (k + 2 * n + 1)) prophecies.length,
    prophecies.getD (Intn (draws (k + 2 * n + 1)) prophecies.length) [], ?_,
    Nat.mod_lt _ (by decide), rfl, hi, getElem?_eq_some_getD _ _ _ hi,
    getD_mem_of_lt _ _ _ hi⟩
  rw [makeRandomProphecies_succ]
  rfl

/-- C20: when the lowercased question `q` is contained in the lowercased question `q'`, the
type of `q'` ranks at least as high as the type of `q` in the order default, op, death,
name, exit, and every keyword matched by `q` is matched by `q'`. -/
theorem C20_classification_monotone (U : UnicodeTables) (q q' : GoString)
    (ws ws' : List GoString) (h : ToLower U q <:+: ToLower U q') :
    rank (getQuestionType (findKeyWords U q ws).1)
      ≤ rank (getQuestionType (findKeyWords U q' ws').1) ∧
    (∀ k, (findKeyWords U q ws).1 k = true → (findKeyWords U q' ws').1 k = true) ∧
    (rank "default".toList < rank "op".toList ∧ rank "op".toList < rank "death".toList ∧
      rank "death".toList < rank "name".toList ∧ rank "name".toList < rank "exit".toList) := by
  refine ⟨?_, fun k hk => ?_, by decide⟩
  · rw [getQuestionType_findKeyWords, getQuestionType_findKeyWords, rank_chain, rank_chain]
    exact rank_mono_bool _ _ _ _ _ _ _ _ _ _
      (Contains_mono _ _ _ h) (Contains_mono _ _ _ h) (Contains_mono _ _ _ h)
      (Contains_mono _ _ _ h) (Contains_mono _ _ _ h)
  · rw [findKeyWords_map] at hk ⊢
    simp only [Bool.and_eq_true] at hk ⊢
    exact ⟨hk.1, Contains_mono _ _ _ h hk.2⟩

/-- C20 at the questions "is Michel in?" and "Is Michel in? BANANA": the type rises from op
to exit. -/
theorem C20_classification_monotone_witness :
    rank (getQuestionType (findKeyWords plainTables "is Michel in?".toList []).1)
      ≤ rank (getQuestionType (findKeyWords plainTables "Is Michel in? BANANA".toList []).1) ∧
    (∀ k, (findKeyWords plainTables "is Michel in?".toList []).1 k = true →
      (findKeyWords plainTables "Is Michel in? BANANA".toList []).1 k = true) ∧
    (rank "default".toList < rank "op".toList ∧ rank "op".toList < rank "death".toList ∧
      rank "death".toList < rank "name".toList ∧ rank "name".toList < rank "exit".toList) :=
  C20_classification_monotone plainTables "is Michel in?".toList
    "Is Michel in? BANANA".toList [] [] ((Contains_iff _ _).1 (by decide))

end ZUCCBOT3000
